import Mathlib

/-!
Verification of the RFID dashboard's serial command/response transport and
response parsing (`rfid_dashboard_configure_lightsleep_multibutton_S3_live.py`
and `rfid_dashboard_configure_lightsleep_multibutton.py`).

Modelling conventions:
* Python strings are modelled as `List Char` (`PyStr`); concrete literals are
  written via `str "..."`.
* Python's `str.split('\n')`, `str.strip()`, `str.upper()`, `in` (substring),
  `startswith` and `str.replace` are modelled character-exactly for ASCII
  input (`splitNl`, `pyStrip`, `pyUpper`, `containsSub`, `pfxOf`,
  `replaceAll`); the Unicode extensions of Python's `\d`/`\s`/`upper` do not
  occur in device output.
* Wall-clock time is modelled in integer milliseconds; the floating point
  second constants of the source (0.6, 1.5, 10, 20, 30) become 600, 1500,
  10000, 20000, 30000.
-/

/-- Python strings, modelled as lists of characters. -/
abbrev PyStr := List Char

/-- Embed a Lean string literal as a `PyStr`. -/
def str (s : String) : PyStr := s.data

/-- Python `a.startswith(b)` / list prefix test, decidably. -/
def pfxOf : PyStr → PyStr → Bool
  | [], _ => true
  | _ :: _, [] => false
  | a :: as, b :: bs => a = b && pfxOf as bs

/-- Split at the first occurrence of `needle`, returning the part before and
the part after the occurrence.  `none` when there is no occurrence.  This is
the scanning primitive behind Python's `in` and `re.findall` with a literal
head. -/
def splitFirst (needle : PyStr) : PyStr → Option (PyStr × PyStr)
  | [] => if needle = [] then some ([], []) else none
  | c :: cs =>
    if pfxOf needle (c :: cs) then some ([], (c :: cs).drop needle.length)
    else
      match splitFirst needle cs with
      | some (a, b) => some (c :: a, b)
      | none => none

/-- Python's substring test `needle in hay`. -/
def containsSub (needle hay : PyStr) : Bool := (splitFirst needle hay).isSome

/-- Python whitespace (`str.strip` default set / regex `\s`), ASCII part. -/
def isWs (c : Char) : Bool :=
  c = ' ' || c = '\t' || c = '\n' || c = '\r' || c = '\x0b' || c = '\x0c'

/-- Python `str.strip()`. -/
def pyStrip (s : PyStr) : PyStr :=
  ((s.dropWhile isWs).reverse.dropWhile isWs).reverse

/-- Python `str.upper()` (ASCII). -/
def pyUpper (s : PyStr) : PyStr := s.map Char.toUpper

/-- Python `str.split('\n')`: splits on every newline; the empty string gives
`[""]`. -/
def splitNl : PyStr → List PyStr
  | [] => [[]]
  | c :: cs =>
    if c = '\n' then [] :: splitNl cs
    else
      match splitNl cs with
      | l :: ls => (c :: l) :: ls
      | [] => [[c]]

/-- Python `'\n'.join(lines)`. -/
def joinNl : List PyStr → PyStr
  | [] => []
  | [l] => l
  | l :: ls => l ++ '\n' :: joinNl ls

/-- Python `hay.replace(needle, "")`: delete every occurrence of `needle`
(left to right, non-overlapping).  Structural recursion on a fuel that starts
at the string length; every step shortens the string by at least one
character, so the fuel never runs out on the initial call. -/
def replaceAllGo (needle : PyStr) : Nat → PyStr → PyStr
  | 0, s => s
  | _ + 1, [] => []
  | fuel + 1, c :: cs =>
    if needle ≠ [] && pfxOf needle (c :: cs) then
      replaceAllGo needle fuel ((c :: cs).drop needle.length)
    else
      c :: replaceAllGo needle fuel cs

/-- Python `hay.replace(needle, "")`. -/
def replaceAll (needle hay : PyStr) : PyStr := replaceAllGo needle hay.length hay

/-! ### Basic lemmas about the string primitives -/

theorem pfxOf_iff (p l : PyStr) : pfxOf p l = true ↔ l.take p.length = p := by
  induction p generalizing l with
  | nil => simp [pfxOf]
  | cons a as ih =>
    cases l with
    | nil => simp [pfxOf]
    | cons b bs =>
      simp only [pfxOf, List.length_cons, List.take_succ_cons, Bool.and_eq_true,
        decide_eq_true_eq, List.cons.injEq]
      constructor
      · rintro ⟨h1, h2⟩
        exact ⟨h1.symm, (ih bs).mp h2⟩
      · rintro ⟨h1, h2⟩
        exact ⟨h1.symm, (ih bs).mpr h2⟩

theorem pfxOf_append (p r : PyStr) : pfxOf p (p ++ r) = true := by
  rw [pfxOf_iff]
  simp [List.take_append_eq_append_take, List.take_length]

theorem splitFirst_some_eq {needle l p s : PyStr}
    (h : splitFirst needle l = some (p, s)) : l = p ++ needle ++ s := by
  induction l generalizing p with
  | nil =>
    by_cases hn : needle = ([] : PyStr) <;> simp [splitFirst, hn] at h
    rcases h with ⟨h1, h2⟩
    subst h1; subst h2
    simp [hn]
  | cons c cs ih =>
    simp only [splitFirst] at h
    split at h
    · next hp =>
      rw [pfxOf_iff] at hp
      simp only [Option.some.injEq, Prod.mk.injEq] at h
      rcases h with ⟨h1, h2⟩
      subst h1
      simp only [List.nil_append]
      conv_lhs => rw [← List.take_append_drop needle.length (c :: cs)]
      rw [hp, h2]
    · split at h
      · next a b heq =>
        simp only [Option.some.injEq, Prod.mk.injEq] at h
        rcases h with ⟨h1, h2⟩
        subst h2
        rw [← h1]
        simp [ih heq]
      · exact absurd h (by simp)

/-- `a` has no occurrence of `needle` as a contiguous sublist. -/
def NoOcc (needle a : PyStr) : Prop := ∀ x y : PyStr, a ≠ x ++ needle ++ y

/-- `needle` has no proper border (no nonempty proper prefix that is also a
suffix); both dashboard tags satisfy this, which rules out occurrences that
straddle a concatenation boundary. -/
def Unbordered (needle : PyStr) : Prop :=
  ∀ k, 0 < k → k < needle.length → needle.take k ≠ needle.drop (needle.length - k)

/-- Decidable check for `Unbordered`. -/
def unborderedB (n : PyStr) : Bool :=
  (List.range n.length).all fun k =>
    k = 0 || decide (n.take k ≠ n.drop (n.length - k))

theorem unborderedB_sound {n : PyStr} (h : unborderedB n = true) : Unbordered n := by
  intro k hk0 hkn
  have := (List.all_eq_true.mp h) k (List.mem_range.mpr hkn)
  simp only [Bool.or_eq_true, decide_eq_true_eq] at this
  rcases this with h1 | h2
  · omega
  · exact h2

theorem splitFirst_cons (needle : PyStr) (c : Char) (cs : PyStr) :
    splitFirst needle (c :: cs)
      = if pfxOf needle (c :: cs) then some ([], (c :: cs).drop needle.length)
        else
          match splitFirst needle cs with
          | some (a, b) => some (c :: a, b)
          | none => none := by
  simp only [splitFirst]

theorem splitFirst_self (needle b : PyStr) (hne : needle ≠ []) :
    splitFirst needle (needle ++ b) = some ([], b) := by
  cases needle with
  | nil => exact absurd rfl hne
  | cons n ns =>
    have hp : pfxOf (n :: ns) ((n :: ns) ++ b) = true := pfxOf_append _ b
    have hd : ((n :: ns) ++ b).drop (n :: ns).length = b := List.drop_left _ _
    rw [List.cons_append] at hp hd ⊢
    rw [splitFirst_cons, if_pos hp]
    simp only [Option.some.injEq, Prod.mk.injEq, true_and]
    exact hd

theorem splitFirst_isSome_of_occ (needle x y : PyStr) :
    (splitFirst needle (x ++ needle ++ y)).isSome = true := by
  induction x with
  | nil =>
    by_cases hn : needle = ([] : PyStr)
    · subst hn
      cases y <;> simp [splitFirst, pfxOf]
    · simp [splitFirst_self needle y hn]
  | cons c x ih =>
    have hcons : ((c :: x) ++ needle ++ y : PyStr) = c :: (x ++ needle ++ y) := by
      simp
    rw [hcons, splitFirst_cons]
    split
    · simp
    · cases hs : splitFirst needle (x ++ needle ++ y) with
      | none => rw [hs] at ih; simp at ih
      | some pr => obtain ⟨a, b⟩ := pr; simp [hs]

theorem NoOcc_of_not_containsSub {needle a : PyStr}
    (h : containsSub needle a = false) : NoOcc needle a := by
  intro x y hxy
  have := splitFirst_isSome_of_occ needle x y
  rw [← hxy] at this
  simp [containsSub, this] at h

theorem NoOcc_cons {needle : PyStr} {c : Char} {a : PyStr}
    (h : NoOcc needle (c :: a)) : NoOcc needle a := by
  intro x y hxy
  exact h (c :: x) y (by simp [hxy])

theorem splitFirst_boundary {needle : PyStr} (hne : needle ≠ [])
    (hub : Unbordered needle) :
    ∀ a b : PyStr, NoOcc needle a →
      splitFirst needle (a ++ needle ++ b) = some (a, b) := by
  intro a
  induction a with
  | nil => intro b _; simpa using splitFirst_self needle b hne
  | cons c a' ih =>
    intro b hno
    have hlen : 0 < (c :: a').length := by simp
    have hnp : pfxOf needle ((c :: a') ++ (needle ++ b)) = false := by
      cases hx : pfxOf needle ((c :: a') ++ (needle ++ b)) with
      | false => rfl
      | true =>
        exfalso
        have hp := (pfxOf_iff _ _).mp hx
        by_cases hmk : needle.length ≤ (c :: a').length
        · -- occurrence inside `c :: a'`, contradicting NoOcc
          have htake : ((c :: a') ++ (needle ++ b)).take needle.length
              = (c :: a').take needle.length := List.take_append_of_le_length hmk
          rw [htake] at hp
          apply hno [] ((c :: a').drop needle.length)
          calc (c :: a' : PyStr)
              = (c :: a').take needle.length ++ (c :: a').drop needle.length :=
                (List.take_append_drop _ _).symm
            _ = needle ++ (c :: a').drop needle.length := by rw [hp]
            _ = [] ++ needle ++ (c :: a').drop needle.length := by simp
        · -- occurrence straddling the boundary, contradicting Unbordered
          push_neg at hmk
          have htk : ((c :: a') ++ (needle ++ b)).take needle.length
              = (c :: a') ++ (needle ++ b).take (needle.length - (c :: a').length) := by
            rw [List.take_append_eq_append_take,
              List.take_of_length_le (le_of_lt hmk)]
          have htk2 : (needle ++ b).take (needle.length - (c :: a').length)
              = needle.take (needle.length - (c :: a').length) :=
            List.take_append_of_le_length (by omega)
          rw [htk, htk2] at hp
          have hdrop : needle.drop (c :: a').length
              = needle.take (needle.length - (c :: a').length) := by
            conv_lhs => rw [← hp]
            rw [List.drop_left]
          have hub2 := hub (needle.length - (c :: a').length) (by omega) (by omega)
          rw [show needle.length - (needle.length - (c :: a').length)
              = (c :: a').length by omega] at hub2
          exact hub2 hdrop.symm
    have hrec := ih b (NoOcc_cons hno)
    have hgoal : splitFirst needle (c :: (a' ++ needle ++ b)) = some (c :: a', b) := by
      rw [splitFirst_cons, if_neg (by simp_all), hrec]
    have hshape : ((c :: a') ++ needle ++ b : PyStr) = c :: (a' ++ needle ++ b) := by simp
    rw [hshape, hgoal]

theorem splitFirst_none_of_noOcc {needle a : PyStr}
    (h : ∀ x y : PyStr, a ≠ x ++ needle ++ y) : splitFirst needle a = none := by
  cases hs : splitFirst needle a with
  | none => rfl
  | some pr =>
    obtain ⟨p, s⟩ := pr
    exact absurd (splitFirst_some_eq hs) (h p s)

/-! ### `splitNl` / `joinNl` -/

/-- A line contains no newline character. -/
def noNl (l : PyStr) : Bool := l.all fun c => c ≠ '\n'

theorem splitNl_no_newline {l : PyStr} (h : noNl l = true) : splitNl l = [l] := by
  induction l with
  | nil => rfl
  | cons c cs ih =>
    simp only [noNl, List.all_cons, Bool.and_eq_true, decide_eq_true_eq] at h
    have ih2 := ih h.2
    simp [splitNl, h.1, ih2]

theorem splitNl_append_newline {l t : PyStr} (h : noNl l = true) :
    splitNl (l ++ '\n' :: t) = l :: splitNl t := by
  induction l with
  | nil => simp [splitNl]
  | cons c cs ih =>
    simp only [noNl, List.all_cons, Bool.and_eq_true, decide_eq_true_eq] at h
    have ih2 := ih h.2
    simp [splitNl, h.1, ih2, List.cons_append]

theorem splitNl_joinNl {ls : List PyStr} (hne : ls ≠ [])
    (h : ∀ l ∈ ls, noNl l = true) : splitNl (joinNl ls) = ls := by
  induction ls with
  | nil => exact absurd rfl hne
  | cons l ls ih =>
    cases ls with
    | nil => exact splitNl_no_newline (h l (by simp))
    | cons l2 ls2 =>
      have h1 : noNl l = true := h l (by simp)
      have h2 : ∀ x ∈ l2 :: ls2, noNl x = true := fun x hx => h x (by simp [hx])
      simp only [joinNl, splitNl_append_newline h1, ih (by simp) h2]

/-! ### Record-line matching

The two reading-line regexes of `parse_readings`
(`rfid_dashboard_configure_lightsleep_multibutton_S3_live.py`, lines 599-600)

  debug : `#\d+:\s*\[DEBUG\]\s*raw_timestamp=\d+,\s*converted=([\d\-]+\s[\d:]+),\s*([\d]+),\s*([\d]+),\s*((?:[\d.]+°C|N/A))`
  normal: `#\d+:\s*([\d\-]+\s[\d:]+),\s*([\d]+),\s*([\d]+),\s*((?:[\d.]+°C|N/A))`

are modelled by deterministic maximal-munch matchers.  This is exact for
these patterns: at every juncture the repeated class is disjoint from the
character that must follow (`\d` vs `:`/`,`, `\s` vs `[\d\-]`/`[\d]`/`[\d.]`/
letters, `[\d\-]` vs `\s`, `[\d:]` vs `,`, `[\d.]` vs `°`), so a backtracking
engine accepts at a given start position exactly when the greedy one does,
with the same group boundaries; `re.search` then takes the leftmost accepting
start position, which `reSearch` reproduces.  Python's Unicode `\d`/`\s` are
restricted to their ASCII parts (device output is ASCII). -/

/-- Regex class `\d` (ASCII part). -/
def isDig (c : Char) : Bool := '0' ≤ c && c ≤ '9'

/-- Regex class `[\d\-]`. -/
def isDigDash (c : Char) : Bool := isDig c || c = '-'

/-- Regex class `[\d:]`. -/
def isDigColon (c : Char) : Bool := isDig c || c = ':'

/-- Regex class `[\d.]`. -/
def isDigDot (c : Char) : Bool := isDig c || c = '.'

/-- Match exactly one character of a class. -/
def one (p : Char → Bool) : PyStr → Option (Char × PyStr)
  | [] => none
  | c :: cs => if p c then some (c, cs) else none

/-- Greedy `class+`: one or more characters of the class, maximal munch. -/
def cls1 (p : Char → Bool) (cs : PyStr) : Option (PyStr × PyStr) :=
  let t := cs.takeWhile p
  if t = [] then none else some (t, cs.dropWhile p)

/-- Literal character. -/
def litc (c : Char) : PyStr → Option PyStr
  | [] => none
  | x :: xs => if x = c then some xs else none

/-- Literal word. -/
def lits (w : PyStr) (cs : PyStr) : Option PyStr :=
  if pfxOf w cs then some (cs.drop w.length) else none

/-- Second branch of the temperature alternation: literal `N/A`. -/
def naAlt (cs : PyStr) : Option (PyStr × PyStr) :=
  match lits (str "N/A") cs with
  | some rest => some (str "N/A", rest)
  | none => none

/-- The temperature group `((?:[\d.]+°C|N/A))`: greedy digits/dots followed by
the literal `°C`, else the literal `N/A` at the same position.  (No shorter
`[\d.]+` split can help the first branch: it would leave a `[\d.]` character
where `°` is required.) -/
def tempAlt (cs : PyStr) : Option (PyStr × PyStr) :=
  match cls1 isDigDot cs with
  | some (d, rest) =>
    match lits (str "°C") rest with
    | some rest2 => some (d ++ str "°C", rest2)
    | none => naAlt cs
  | none => naAlt cs

/-- The groups shared by both patterns, from the timestamp on:
`([\d\-]+\s[\d:]+),\s*([\d]+),\s*([\d]+),\s*((?:[\d.]+°C|N/A))`. -/
def matchRecTail (cs : PyStr) : Option (PyStr × PyStr × PyStr × PyStr) := do
  let (d1, cs) ← cls1 isDigDash cs
  let (w, cs) ← one isWs cs
  let (d2, cs) ← cls1 isDigColon cs
  let cs ← litc ',' cs
  let cs := cs.dropWhile isWs
  let (v1, cs) ← cls1 isDig cs
  let cs ← litc ',' cs
  let cs := cs.dropWhile isWs
  let (tag, cs) ← cls1 isDig cs
  let cs ← litc ',' cs
  let cs := cs.dropWhile isWs
  let (temp, _) ← tempAlt cs
  some (d1 ++ [w] ++ d2, v1, tag, temp)

/-- The normal pattern, anchored at the current position. -/
def matchNormalAt (cs : PyStr) : Option (PyStr × PyStr × PyStr × PyStr) := do
  let cs ← litc '#' cs
  let (_, cs) ← cls1 isDig cs
  let cs ← litc ':' cs
  let cs := cs.dropWhile isWs
  matchRecTail cs

/-- The debug pattern, anchored at the current position. -/
def matchDebugAt (cs : PyStr) : Option (PyStr × PyStr × PyStr × PyStr) := do
  let cs ← litc '#' cs
  let (_, cs) ← cls1 isDig cs
  let cs ← litc ':' cs
  let cs := cs.dropWhile isWs
  let cs ← lits (str "[DEBUG]") cs
  let cs := cs.dropWhile isWs
  let cs ← lits (str "raw_timestamp=") cs
  let (_, cs) ← cls1 isDig cs
  let cs ← litc ',' cs
  let cs := cs.dropWhile isWs
  let cs ← lits (str "converted=") cs
  matchRecTail cs

/-- `re.search`: try the anchored matcher at every start position, leftmost
first. -/
def reSearch {α : Type} (m : PyStr → Option α) : PyStr → Option α
  | [] => m []
  | c :: cs =>
    match m (c :: cs) with
    | some r => some r
    | none => reSearch m cs

/-! ### `parse_readings` (both dashboard versions) -/

/-- One parsed RFID reading (dict with keys Timestamp/Value1/Tag/Temperature_C). -/
structure Reading where
  Timestamp : PyStr
  Value1 : PyStr
  Tag : PyStr
  Temperature_C : PyStr
deriving DecidableEq, Repr

/-- Temperature post-processing of the S3-live `parse_readings`: keep `N/A`,
otherwise delete the `°C` suffix (`temp.replace('°C', '')`). -/
def tempValueOf (temp : PyStr) : PyStr :=
  if temp = str "N/A" then str "N/A" else replaceAll (str "°C") temp

/-- Match one line against the debug then the normal pattern and build the
reading dict, exactly as the body of the S3-live `parse_readings` loop. -/
def readingOfLine (line : PyStr) : Option Reading :=
  match reSearch matchDebugAt line with
  | some (ts, v1, tag, temp) => some ⟨ts, v1, tag, tempValueOf temp⟩
  | none =>
    match reSearch matchNormalAt line with
    | some (ts, v1, tag, temp) => some ⟨ts, v1, tag, tempValueOf temp⟩
    | none => none

/-- `'---BEGIN_READINGS---' in line`. -/
def hasBeginR (l : PyStr) : Bool := containsSub (str "---BEGIN_READINGS---") l

/-- `'---END_READINGS---' in line`. -/
def hasEndR (l : PyStr) : Bool := containsSub (str "---END_READINGS---") l

/-- The line loop of `parse_readings` with its `in_block` flag and the
accumulated readings. -/
def parseLoop : List PyStr → Bool → List Reading → List Reading
  | [], _, acc => acc
  | l :: ls, inb, acc =>
    if hasBeginR l then parseLoop ls true acc
    else if hasEndR l then parseLoop ls false acc
    else if inb then
      match readingOfLine l with
      | some r => parseLoop ls inb (acc ++ [r])
      | none => parseLoop ls inb acc
    else parseLoop ls false acc

/-- `parse_readings` of `rfid_dashboard_configure_lightsleep_multibutton_S3_live.py`
(lines 581-629). -/
def parse_readings (response : PyStr) : List Reading :=
  parseLoop (splitNl response) false []

/-- Temperature group of the older dashboard's patterns: `([\d.]+)°C` — the
group excludes the unit and there is no `N/A` alternative. -/
def tempNmb (cs : PyStr) : Option (PyStr × PyStr) := do
  let (d, rest) ← cls1 isDigDot cs
  let rest2 ← lits (str "°C") rest
  some (d, rest2)

/-- Shared tail of the older dashboard's patterns
(`rfid_dashboard_configure_lightsleep_multibutton.py`, lines 401-402):
`([\d\-]+\s[\d:]+),\s*([\d]+),\s*([\d]+),\s*([\d.]+)°C`. -/
def matchRecTailNmb (cs : PyStr) : Option (PyStr × PyStr × PyStr × PyStr) := do
  let (d1, cs) ← cls1 isDigDash cs
  let (w, cs) ← one isWs cs
  let (d2, cs) ← cls1 isDigColon cs
  let cs ← litc ',' cs
  let cs := cs.dropWhile isWs
  let (v1, cs) ← cls1 isDig cs
  let cs ← litc ',' cs
  let cs := cs.dropWhile isWs
  let (tag, cs) ← cls1 isDig cs
  let cs ← litc ',' cs
  let cs := cs.dropWhile isWs
  let (temp, _) ← tempNmb cs
  some (d1 ++ [w] ++ d2, v1, tag, temp)

/-- Older dashboard, normal pattern. -/
def matchNormalAtNmb (cs : PyStr) : Option (PyStr × PyStr × PyStr × PyStr) := do
  let cs ← litc '#' cs
  let (_, cs) ← cls1 isDig cs
  let cs ← litc ':' cs
  let cs := cs.dropWhile isWs
  matchRecTailNmb cs

/-- Older dashboard, debug pattern. -/
def matchDebugAtNmb (cs : PyStr) : Option (PyStr × PyStr × PyStr × PyStr) := do
  let cs ← litc '#' cs
  let (_, cs) ← cls1 isDig cs
  let cs ← litc ':' cs
  let cs := cs.dropWhile isWs
  let cs ← lits (str "[DEBUG]") cs
  let cs := cs.dropWhile isWs
  let cs ← lits (str "raw_timestamp=") cs
  let (_, cs) ← cls1 isDig cs
  let cs ← litc ',' cs
  let cs := cs.dropWhile isWs
  let cs ← lits (str "converted=") cs
  matchRecTailNmb cs

/-- Line matching of the older dashboard's `parse_readings`: the temperature
is stored as matched (group already lacks `°C`). -/
def readingOfLineNmb (line : PyStr) : Option Reading :=
  match reSearch matchDebugAtNmb line with
  | some (ts, v1, tag, temp) => some ⟨ts, v1, tag, temp⟩
  | none =>
    match reSearch matchNormalAtNmb line with
    | some (ts, v1, tag, temp) => some ⟨ts, v1, tag, temp⟩
    | none => none

/-- Line loop of the older dashboard's `parse_readings`. -/
def parseLoopNmb : List PyStr → Bool → List Reading → List Reading
  | [], _, acc => acc
  | l :: ls, inb, acc =>
    if hasBeginR l then parseLoopNmb ls true acc
    else if hasEndR l then parseLoopNmb ls false acc
    else if inb then
      match readingOfLineNmb l with
      | some r => parseLoopNmb ls inb (acc ++ [r])
      | none => parseLoopNmb ls inb acc
    else parseLoopNmb ls false acc

/-- `parse_readings` of `rfid_dashboard_configure_lightsleep_multibutton.py`
(lines 384-421). -/
def parse_readings_nmb (response : PyStr) : List Reading :=
  parseLoopNmb (splitNl response) false []

/-! ### `extract_latest_readings_block` (S3-live, lines 737-759) -/

/-- `<DASHBOARD_DATA>` open tag. -/
def openTag : PyStr := str "<DASHBOARD_DATA>"

/-- `</DASHBOARD_DATA>` close tag. -/
def closeTag : PyStr := str "</DASHBOARD_DATA>"

/-- `re.findall(r'<DASHBOARD_DATA>(.*?)</DASHBOARD_DATA>', s, re.DOTALL)`:
repeatedly take the earliest open tag, then the lazy group runs to the first
close tag after it; scanning resumes after that close tag.  Structural
recursion on a fuel that starts at the string length (each match consumes at
least the two tags). -/
def ddFindallGo : Nat → PyStr → List PyStr
  | 0, _ => []
  | fuel + 1, cs =>
    match splitFirst openTag cs with
    | none => []
    | some (_, rest) =>
      match splitFirst closeTag rest with
      | none => []
      | some (mid, rest2) => mid :: ddFindallGo fuel rest2

/-- All `<DASHBOARD_DATA>…</DASHBOARD_DATA>` group contents, in order. -/
def ddFindall (cs : PyStr) : List PyStr := ddFindallGo cs.length cs

/-- The block-collecting loop of `extract_latest_readings_block`: on a line
containing the begin sentinel, start a fresh current block; on a line
containing the end sentinel, append the joined current block to `blocks`
(the source does not clear `current_block` there); inside a block, collect
the line. -/
def blocksLoop : List PyStr → Bool → List PyStr → List PyStr → List PyStr
  | [], _, _, blocks => blocks
  | l :: ls, inb, cur, blocks =>
    if hasBeginR l then blocksLoop ls true [] blocks
    else if hasEndR l then blocksLoop ls false cur (blocks ++ [joinNl cur])
    else if inb then blocksLoop ls inb (cur ++ [l]) blocks
    else blocksLoop ls inb cur blocks

/-- `extract_latest_readings_block`: restrict to the last
`<DASHBOARD_DATA>` wrapper when one exists, then return the last
begin/end-delimited block, or `""` when there is none. -/
def extract_latest_readings_block (response : PyStr) : PyStr :=
  let dbs := ddFindall response
  let response := if dbs = [] then response else dbs.getLastD []
  let blocks := blocksLoop (splitNl response) false [] []
  blocks.getLastD []

/-! ### `get_variable_with_markers` (S3-live lines 647-735, older file
lines 439-486; both scan identically) -/

/-- The fixed variable-name → marker table; unknown names fall back to
`var.upper()`. -/
def marker_map (var : PyStr) : PyStr :=
  if var = str "rfidOnTimeMs" then str "RFIDONTIME"
  else if var = str "periodicIntervalMs" then str "PERIODICINTERVAL"
  else if var = str "ssid" then str "SSID"
  else if var = str "password" then str "PASSWORD"
  else if var = str "longPressMs" then str "LONGPRESSMS"
  else pyUpper var

/-- The reading loop of `get_variable_with_markers` over the stripped incoming
lines (the 4-second wall-clock cut-off is modelled by the finite list of lines
the device delivers in the window). -/
def gvwmLoop (startM endM : PyStr) : List PyStr → Bool → List PyStr → List PyStr
  | [], _, acc => acc
  | raw :: rest, found, acc =>
    let line := pyStrip raw
    if line = startM then gvwmLoop startM endM rest true acc
    else if found && line = endM then acc
    else if found then gvwmLoop startM endM rest found (acc ++ [line])
    else gvwmLoop startM endM rest found acc

/-- `get_variable_with_markers`: marker scan plus
`next((l for l in lines_between if l and l != start_marker and l != end_marker), None)`. -/
def get_variable_with_markers (var : PyStr) (rawLines : List PyStr) : Option PyStr :=
  let mb := marker_map var
  let startM := str "<GET_" ++ mb ++ str "_BEGIN>"
  let endM := str "<GET_" ++ mb ++ str "_END>"
  let lines_between := gvwmLoop startM endM rawLines false []
  lines_between.find? fun l => !l.isEmpty && !(l = startM : Bool) && !(l = endM : Bool)

/-- The claim's wording of marker extraction: strip the lines, take the body
strictly between the first begin-marker line and the next end-marker line,
and return its first non-empty, non-marker line. -/
def gvwmSpec (startM endM : PyStr) (rawLines : List PyStr) : Option PyStr :=
  let lines := rawLines.map pyStrip
  let body := ((lines.dropWhile fun l => !(l = startM : Bool)).drop 1).takeWhile
    fun l => !(l = endM : Bool)
  body.find? fun l => !l.isEmpty && !(l = startM : Bool) && !(l = endM : Bool)

/-! ### Response collection (`send_command` / `_wake_and_send_command`)

The link is modelled by the list of events of one collection window, in time
order: at `t` milliseconds after `start_time`, `readline` either yields a raw
line or raises.  Between events the loop spins with `in_waiting` false, so a
strict timeout check (`>`) fires at the first instant strictly past its
threshold; an event at exactly a threshold is therefore still processed.
After a just-read nonempty line the loop re-checks the conditions at the
read time itself; those checks can never fire there (the gap is 0 and the
event was reachable only if it was at or before every live threshold). -/

/-- One link event during collection. -/
inductive LinkEvent where
  | line (t : Nat) (raw : PyStr)
  | err (t : Nat)
deriving DecidableEq, Repr

/-- Arrival time of an event. -/
def LinkEvent.time : LinkEvent → Nat
  | .line t _ => t
  | .err t => t

/-- Termination reason of a collection (`end_reason` in the source). -/
inductive Reason where
  | end_marker
  | quiet_period
  | hard_timeout
deriving DecidableEq, Repr

/-- Result of one collection: the accumulated `response` string (each
nonempty stripped line followed by `'\n'`) and the end reason. -/
structure CollectOutcome where
  text : PyStr
  reason : Reason
deriving DecidableEq, Repr

/-- The end-marker test of `send_command`:
`'</DASHBOARD_DATA>' in line or (expect_range and '---END_READINGS---' in line)`. -/
def endMarkerHit (expectRange : Bool) (line : PyStr) : Bool :=
  containsSub (str "</DASHBOARD_DATA>") line
    || (expectRange && containsSub (str "---END_READINGS---") line)

/-- The collection loop of `send_command` (S3-live lines 540-570): the
quiet-period and hard-timeout checks run at loop level on every spin, the
quiet period measured from the last nonempty line (`received_any`), ties
resolved in source order (quiet before hard);  an `err` event models
`readline` raising, which the caller's `except` turns into `""`. -/
def collectPlainGo (quiet hard : Nat) (expectRange : Bool) :
    List LinkEvent → Option Nat → PyStr → Except Unit CollectOutcome
  | [], lastRx, acc =>
    match lastRx with
    | some r =>
      if r + quiet ≤ hard then .ok ⟨acc, .quiet_period⟩ else .ok ⟨acc, .hard_timeout⟩
    | none => .ok ⟨acc, .hard_timeout⟩
  | e :: es, lastRx, acc =>
    let fire : Option Reason :=
      match lastRx with
      | some r =>
        if min (r + quiet) hard < e.time then
          some (if r + quiet ≤ hard then .quiet_period else .hard_timeout)
        else none
      | none => if hard < e.time then some .hard_timeout else none
    match fire with
    | some rsn => .ok ⟨acc, rsn⟩
    | none =>
      match e with
      | .err _ => .error ()
      | .line t raw =>
        let line := pyStrip raw
        let acc2 := if line ≠ [] then acc ++ line ++ ['\n'] else acc
        let lastRx2 := if line ≠ [] then some t else lastRx
        if endMarkerHit expectRange line then .ok ⟨acc2, .end_marker⟩
        else collectPlainGo quiet hard expectRange es lastRx2 acc2

/-- The collection loop of `_wake_and_send_command` (S3-live lines 452-483).
Faithful to the source, the quiet-period check sits INSIDE the
`if ser.in_waiting:` branch, so it is evaluated only right after a line was
read; while the link is silent only the hard timeout is checked.  There is no
end-marker check. -/
def collectFastGo (quiet hard : Nat) :
    List LinkEvent → Option Nat → PyStr → Except Unit CollectOutcome
  | [], _, acc => .ok ⟨acc, .hard_timeout⟩
  | e :: es, lastRx, acc =>
    if hard < e.time then .ok ⟨acc, .hard_timeout⟩
    else
      match e with
      | .err _ => .error ()
      | .line t raw =>
        let line := pyStrip raw
        let acc2 := if line ≠ [] then acc ++ line ++ ['\n'] else acc
        let lastRx2 := if line ≠ [] then some t else lastRx
        match lastRx2 with
        | some r =>
          if r + quiet < t then .ok ⟨acc2, .quiet_period⟩
          else collectFastGo quiet hard es lastRx2 acc2
        | none => collectFastGo quiet hard es lastRx2 acc2

/-- `_wake_and_send_command`'s collection with its local profile
`quiet_period = 0.6`, `hard_timeout = 10` (S3-live lines 449-450). -/
def collectFast (events : List LinkEvent) : Except Unit CollectOutcome :=
  collectFastGo 600 10000 events none []

/-- The retry loop of `_wake_and_send_command` (`for attempt in range(3)`):
`script i` gives the link events seen by attempt `i`.  A nonempty stripped
capture returns at once; an empty capture or an exception retries after a
0.5 s sleep, except on the last attempt, which returns `""`.  Result:
(returned text, attempts executed, 0.5 s backoff sleeps taken). -/
def wakeLoop (script : Nat → List LinkEvent) : Nat → Nat → PyStr × Nat × Nat
  | _, 0 => (str "", 0, 0)
  | i, k + 1 =>
    match collectFast (script i) with
    | .ok o =>
      if pyStrip o.text ≠ [] then (pyStrip o.text, 1, 0)
      else if k = 0 then (str "", 1, 0)
      else
        let (r, n, b) := wakeLoop script (i + 1) k
        (r, n + 1, b + 1)
    | .error _ =>
      if k = 0 then (str "", 1, 0)
      else
        let (r, n, b) := wakeLoop script (i + 1) k
        (r, n + 1, b + 1)

/-- `_wake_and_send_command` (S3-live lines 418-502) with `max_retries = 3`;
`serNone` models `ser is None`, which returns `""` before any exchange. -/
def wake_and_send_command (serNone : Bool) (script : Nat → List LinkEvent) :
    PyStr × Nat × Nat :=
  if serNone then (str "", 0, 0) else wakeLoop script 0 3

/-- The fast-turnaround command list of `send_command` (S3-live line 535). -/
def fastCommands : List PyStr :=
  [str "dashboardmode on", str "dashboardmode off", str "status",
   str "debugsimple", str "debug", str "buttonmode", str "testbutton",
   str "print"]

/-- `expect_range = command.strip().startswith("range ")`. -/
def expectRange (command : PyStr) : Bool := pfxOf (str "range ") (pyStrip command)

/-- The shared collection loop of `send_command` with its per-command profile
(S3-live lines 537-538): quiet 1.5 s / hard 30 s for range queries, else
0.6 s / 20 s. -/
def sendPlainCollect (command : PyStr) (events : List LinkEvent) :
    Except Unit CollectOutcome :=
  collectPlainGo (if expectRange command then 1500 else 600)
    (if expectRange command then 30000 else 20000) (expectRange command)
    events none []

/-- The try-block body of `send_command`: fast-turnaround commands go through
the retrying wrapper and fall back once to the standard path when it reports
empty; all other commands use the standard path directly.  `preFail` models
an exception in the standard path's wake/clear/write preamble; collection
exceptions propagate. -/
def send_command_body (command : PyStr) (serNone : Bool)
    (script : Nat → List LinkEvent) (preFail : Bool)
    (events : List LinkEvent) : Except Unit PyStr :=
  if fastCommands.contains command then
    let (r, _, _) := wake_and_send_command serNone script
    if r ≠ [] then .ok r
    else if preFail then .error ()
    else
      match sendPlainCollect command events with
      | .ok o => .ok (pyStrip o.text)
      | .error e => .error e
  else if preFail then .error ()
  else
    match sendPlainCollect command events with
    | .ok o => .ok (pyStrip o.text)
    | .error e => .error e

/-- `send_command` (S3-live lines 504-576): the whole body runs inside
`try: ... except: return ""`. -/
def send_command (command : PyStr) (serNone : Bool)
    (script : Nat → List LinkEvent) (preFail : Bool)
    (events : List LinkEvent) : PyStr :=
  match send_command_body command serNone script preFail events with
  | .ok t => t
  | .error _ => str ""

/-! ### Live view auto-refresh failure accounting
(S3-live lines 1286-1348 and page-bottom maintenance lines 1622-1655) -/

/-- Session state relevant to live-poll failure accounting. -/
structure PollState where
  lastDf : Option (List Reading)
  errCount : Nat
  connected : Bool
  stopRequested : Bool
deriving DecidableEq, Repr

/-- What one auto-refresh poll produced: an empty/absent response, an
exception during the exchange, or a nonempty response parsed into readings. -/
inductive PollResult where
  | empty
  | exn
  | resp (readings : List Reading)
deriving DecidableEq, Repr

/-- The auto-refresh handler: an empty response or an exception increments
`connection_error_count` and, when it reaches 3, shows the connection-lost
error, disconnects and resets the counter to 0; a nonempty response resets
the counter to 0 and replaces `last_df` only when readings were parsed.
Returns the new state and whether the connection-lost error was shown. -/
def pollStep (s : PollState) (r : PollResult) : PollState × Bool :=
  match r with
  | .empty | .exn =>
    let c := s.errCount + 1
    if 3 ≤ c then ({ s with errCount := 0, connected := false }, true)
    else ({ s with errCount := c }, false)
  | .resp readings =>
    let df := if readings = [] then s.lastDf else some readings
    ({ s with errCount := 0, lastDf := df }, false)

/-- One full rerun: the poll handler followed by the page-bottom live-view
maintenance, which requests a live-view stop whenever the session is no
longer connected — this is what deactivates the watch session after a forced
disconnect. -/
def liveIter (s : PollState) (r : PollResult) : PollState × Bool :=
  let (s1, signal) := pollStep s r
  (if s1.connected then s1 else { s1 with stopRequested := true }, signal)

/-- The watch session is active: connected and no stop requested. -/
def watchActive (s : PollState) : Bool := s.connected && !s.stopRequested

/-! ### Live view window state machine
(S3-live lines 1133-1161, 1273-1285, 1419-1433) -/

/-- Live-view state: `live_view_enabled` and `live_view_start_timestamp`
(as a UTC epoch). -/
structure LiveView where
  active : Bool
  windowStart : Option Nat
deriving DecidableEq, Repr

/-- User/scheduler events seen by the live view, each with the current time. -/
inductive LEvent where
  | activate (t : Nat)
  | deactivate
  | poll (t : Nat)
deriving DecidableEq, Repr

/-- One live-view transition.  Activation (rising edge) captures
`windowStart := now`; deactivation clears it; a poll while active issues a
range query for `[windowStart, now]`, recomputing the end as the current
time, with the source's fallback of storing `now` as the start if it was
somehow missing.  Returns the new state and the issued query window, if
any. -/
def lvStep (s : LiveView) : LEvent → LiveView × Option (Nat × Nat)
  | .activate t =>
    if s.active then (s, none)
    else ({ active := true, windowStart := some t }, none)
  | .deactivate =>
    if s.active then ({ active := false, windowStart := none }, none)
    else (s, none)
  | .poll t =>
    if s.active then
      match s.windowStart with
      | some w => (s, some (w, t))
      | none => ({ s with windowStart := some t }, some (t, t))
    else (s, none)

/-- Run a list of events, collecting every issued query window in order. -/
def lvRun (s : LiveView) : List LEvent → LiveView × List (Nat × Nat)
  | [] => (s, [])
  | e :: es =>
    let (s1, q) := lvStep s e
    let (s2, qs) := lvRun s1 es
    (s2, match q with | some w => w :: qs | none => qs)

/-- Initial session state: live view off, no stored start timestamp. -/
def lvInit : LiveView := ⟨false, none⟩

/-! ### Helper lemmas: retry wrapper -/

/-- What attempt `i` of `_wake_and_send_command` captures: the stripped
response, or `none` when the attempt raised. -/
def attemptCapture (script : Nat → List LinkEvent) (i : Nat) : Option PyStr :=
  match collectFast (script i) with
  | .ok o => some (pyStrip o.text)
  | .error _ => none

/-- Attempt `i` failed: empty stripped capture or an exception. -/
def attemptFailed (script : Nat → List LinkEvent) (i : Nat) : Prop :=
  attemptCapture script i = some [] ∨ attemptCapture script i = none

theorem str_nil : str "" = [] := rfl

theorem wakeLoop_attempts_le (script : Nat → List LinkEvent) :
    ∀ k i, (wakeLoop script i k).2.1 ≤ k := by
  intro k
  induction k with
  | zero => intro i; simp [wakeLoop]
  | succ k ih =>
    intro i
    have hrec := ih (i + 1)
    simp only [wakeLoop]
    cases hc : collectFast (script i) with
    | ok o =>
      simp only [hc]
      split_ifs
      · show 1 ≤ k + 1; omega
      · show 1 ≤ k + 1; omega
      · show (wakeLoop script (i + 1) k).2.1 + 1 ≤ k + 1
        exact Nat.succ_le_succ hrec
    | error e =>
      simp only [hc]
      split_ifs
      · show 1 ≤ k + 1; omega
      · show (wakeLoop script (i + 1) k).2.1 + 1 ≤ k + 1
        exact Nat.succ_le_succ hrec

theorem wakeLoop_step_fail (script : Nat → List LinkEvent) (i k : Nat)
    (hk : k ≠ 0) (hf : attemptFailed script i) :
    wakeLoop script i (k + 1)
      = ((wakeLoop script (i + 1) k).1,
         (wakeLoop script (i + 1) k).2.1 + 1,
         (wakeLoop script (i + 1) k).2.2 + 1) := by
  simp only [wakeLoop]
  cases hc : collectFast (script i) with
  | ok o =>
    rcases hf with hf | hf <;> simp only [attemptCapture, hc] at hf
    · simp only [Option.some.injEq] at hf
      simp [hf, hk]
    · exact absurd hf (by simp)
  | error e =>
    rcases hf with hf | hf <;> simp only [attemptCapture, hc] at hf
    · exact absurd hf (by simp)
    · simp [hk]

theorem wakeLoop_step_success (script : Nat → List LinkEvent) (i k : Nat)
    (t : PyStr) (ht : attemptCapture script i = some t) (htne : t ≠ []) :
    wakeLoop script i (k + 1) = (t, 1, 0) := by
  simp only [wakeLoop]
  cases hc : collectFast (script i) with
  | ok o =>
    simp only [attemptCapture, hc, Option.some.injEq] at ht
    subst ht
    simp [htne]
  | error e =>
    simp only [attemptCapture, hc] at ht
    exact absurd ht (by simp)

theorem wakeLoop_last_fail (script : Nat → List LinkEvent) (i : Nat)
    (hf : attemptFailed script i) : wakeLoop script i 1 = (str "", 1, 0) := by
  simp only [wakeLoop]
  cases hc : collectFast (script i) with
  | ok o =>
    rcases hf with hf | hf <;> simp only [attemptCapture, hc] at hf
    · simp only [Option.some.injEq] at hf
      simp [hf]
    · exact absurd hf (by simp)
  | error e =>
    rcases hf with hf | hf <;> simp only [attemptCapture, hc] at hf
    · exact absurd hf (by simp)
    · simp

/-- Decidable equality for `Except` results (not provided by the library). -/
instance {e a : Type} [DecidableEq e] [DecidableEq a] : DecidableEq (Except e a) :=
  fun x y =>
    match x, y with
    | .ok u, .ok v =>
      if h : u = v then isTrue (by rw [h]) else isFalse (by simp [h])
    | .error u, .error v =>
      if h : u = v then isTrue (by rw [h]) else isFalse (by simp [h])
    | .ok _, .error _ => isFalse (by simp)
    | .error _, .ok _ => isFalse (by simp)

/-! ### Helper lemmas: `expect_range` profile selection -/

theorem dropWhile_append_of_exists {p : Char → Bool} {x : PyStr} (y : PyStr)
    (h : ∃ c ∈ x, p c = false) :
    (x ++ y).dropWhile p = x.dropWhile p ++ y := by
  induction x with
  | nil => simp at h
  | cons a as ih =>
    by_cases hpa : p a = true
    · have h2 : ∃ c ∈ as, p c = false := by
        rcases h with ⟨c, hc, hcp⟩
        rcases List.mem_cons.mp hc with hca | hcas
        · rw [hca] at hcp; rw [hcp] at hpa; exact absurd hpa (by simp)
        · exact ⟨c, hcas, hcp⟩
      simp [List.dropWhile_cons, hpa, ih h2]
    · simp [List.dropWhile_cons, hpa]

theorem pyStrip_range_append (r : PyStr) (hr : ∃ c ∈ r, isWs c = false) :
    pyStrip (str "range " ++ r)
      = str "range " ++ (r.reverse.dropWhile isWs).reverse := by
  unfold pyStrip
  have h1 : ((str "range " ++ r).dropWhile isWs) = str "range " ++ r := by
    rw [dropWhile_append_of_exists r ⟨'r', by decide, by decide⟩]
    norm_num [show (str "range ").dropWhile isWs = str "range " by decide]
  rw [h1, List.reverse_append]
  have h2 : ∃ c ∈ r.reverse, isWs c = false := by
    rcases hr with ⟨c, hc, hcp⟩
    exact ⟨c, List.mem_reverse.mpr hc, hcp⟩
  rw [dropWhile_append_of_exists _ h2, List.reverse_append, List.reverse_reverse]

theorem expectRange_range_payload (r : PyStr) (hr : ∃ c ∈ r, isWs c = false) :
    expectRange (str "range " ++ r) = true := by
  unfold expectRange
  rw [pyStrip_range_append r hr]
  exact pfxOf_append _ _

theorem expectRange_of_clean_nonrange (command : PyStr)
    (hclean : pyStrip command = command)
    (hnot : pfxOf (str "range ") command = false) :
    expectRange command = false := by
  unfold expectRange
  rw [hclean, hnot]

/-! ### Claim theorems: response collection and dispatch -/

/-- C1 (code_bug evidence): on a link trace that delivers one line 1.0 s in
and then stays silent, the fast-turnaround collector of
`_wake_and_send_command` — whose quiet-period check sits inside the
`if ser.in_waiting:` branch and therefore never runs while the link is
silent — terminates with `hard_timeout` (after 10 s), while the plain
`send_command` collector on the very same trace and quiet period terminates
with `quiet_period`, as the spec describes for both. -/
theorem c1_quiet_period_divergence :
    collectFast [LinkEvent.line 1000 (str "RFID Dashboard Mode: ON")]
      = .ok ⟨str "RFID Dashboard Mode: ON" ++ ['\n'], .hard_timeout⟩
    ∧ sendPlainCollect (str "status")
        [LinkEvent.line 1000 (str "RFID Dashboard Mode: ON")]
      = .ok ⟨str "RFID Dashboard Mode: ON" ++ ['\n'], .quiet_period⟩ := by
  constructor
  · decide
  · decide

/-- C4: `_wake_and_send_command` makes at most 3 attempts; an attempt whose
stripped capture is empty (or which raises) is retried after one 0.5 s
backoff sleep; the first nonempty capture is returned (in particular,
empty, empty, payload yields the payload with exactly 3 attempts and 2
backoffs); when all 3 attempts fail the wrapper returns `""` and
`send_command` falls back exactly once to the plain non-retrying collection,
while a nonempty wrapper result is returned without ever touching the plain
path. -/
theorem c4_fast_retry :
    (∀ serNone script, (wake_and_send_command serNone script).2.1 ≤ 3)
    ∧ (∀ script t, attemptFailed script 0 → attemptFailed script 1 →
        attemptCapture script 2 = some t → t ≠ [] →
        wake_and_send_command false script = (t, 3, 2))
    ∧ (∀ script t, attemptCapture script 0 = some t → t ≠ [] →
        wake_and_send_command false script = (t, 1, 0))
    ∧ (∀ script t, attemptFailed script 0 → attemptCapture script 1 = some t →
        t ≠ [] → wake_and_send_command false script = (t, 2, 1))
    ∧ (∀ script, attemptFailed script 0 → attemptFailed script 1 →
        attemptFailed script 2 →
        wake_and_send_command false script = (str "", 3, 2))
    ∧ (∀ command, fastCommands.contains command = true →
        ∀ script preFail events, attemptFailed script 0 → attemptFailed script 1 →
          attemptFailed script 2 →
          send_command_body command false script preFail events
            = (if preFail then Except.error ()
               else
                 match sendPlainCollect command events with
                 | .ok o => .ok (pyStrip o.text)
                 | .error e => .error e))
    ∧ (∀ command, fastCommands.contains command = true →
        ∀ script preFail events,
          (wake_and_send_command false script).1 ≠ [] →
          send_command command false script preFail events
            = (wake_and_send_command false script).1) := by
  refine ⟨?_, ?_, ?_, ?_, ?_, ?_, ?_⟩
  · intro serNone script
    cases serNone
    · simpa [wake_and_send_command] using wakeLoop_attempts_le script 3 0
    · simp [wake_and_send_command]
  · intro script t hf0 hf1 hc2 htne
    have e2 : wakeLoop script 2 1 = (t, 1, 0) :=
      wakeLoop_step_success script 2 0 t hc2 htne
    have e1 : wakeLoop script 1 2
        = ((wakeLoop script 2 1).1, (wakeLoop script 2 1).2.1 + 1,
           (wakeLoop script 2 1).2.2 + 1) :=
      wakeLoop_step_fail script 1 1 (by omega) hf1
    have e0 : wakeLoop script 0 3
        = ((wakeLoop script 1 2).1, (wakeLoop script 1 2).2.1 + 1,
           (wakeLoop script 1 2).2.2 + 1) :=
      wakeLoop_step_fail script 0 2 (by omega) hf0
    simp [wake_and_send_command, e0, e1, e2]
  · intro script t hc0 htne
    have e0 : wakeLoop script 0 3 = (t, 1, 0) :=
      wakeLoop_step_success script 0 2 t hc0 htne
    simp [wake_and_send_command, e0]
  · intro script t hf0 hc1 htne
    have e1 : wakeLoop script 1 2 = (t, 1, 0) :=
      wakeLoop_step_success script 1 1 t hc1 htne
    have e0 : wakeLoop script 0 3
        = ((wakeLoop script 1 2).1, (wakeLoop script 1 2).2.1 + 1,
           (wakeLoop script 1 2).2.2 + 1) :=
      wakeLoop_step_fail script 0 2 (by omega) hf0
    simp [wake_and_send_command, e0, e1]
  · intro script hf0 hf1 hf2
    have e2 : wakeLoop script 2 1 = (str "", 1, 0) := wakeLoop_last_fail script 2 hf2
    have e1 : wakeLoop script 1 2
        = ((wakeLoop script 2 1).1, (wakeLoop script 2 1).2.1 + 1,
           (wakeLoop script 2 1).2.2 + 1) :=
      wakeLoop_step_fail script 1 1 (by omega) hf1
    have e0 : wakeLoop script 0 3
        = ((wakeLoop script 1 2).1, (wakeLoop script 1 2).2.1 + 1,
           (wakeLoop script 1 2).2.2 + 1) :=
      wakeLoop_step_fail script 0 2 (by omega) hf0
    simp [wake_and_send_command, e0, e1, e2]
  · intro command hcmd script preFail events hf0 hf1 hf2
    have e2 : wakeLoop script 2 1 = (str "", 1, 0) := wakeLoop_last_fail script 2 hf2
    have e1 : wakeLoop script 1 2
        = ((wakeLoop script 2 1).1, (wakeLoop script 2 1).2.1 + 1,
           (wakeLoop script 2 1).2.2 + 1) :=
      wakeLoop_step_fail script 1 1 (by omega) hf1
    have e0 : wakeLoop script 0 3
        = ((wakeLoop script 1 2).1, (wakeLoop script 1 2).2.1 + 1,
           (wakeLoop script 1 2).2.2 + 1) :=
      wakeLoop_step_fail script 0 2 (by omega) hf0
    have hw : wake_and_send_command false script = (str "", 3, 2) := by
      simp [wake_and_send_command, e0, e1, e2]
    simp [send_command_body, hcmd, hw, str_nil]
  · intro command hcmd script preFail events hne
    have hmem : command ∈ fastCommands := by simpa using hcmd
    simp [send_command, send_command_body, hmem, hne]

/-- C4 witness: a link yielding empty text on attempts 0 and 1 and the
payload on attempt 2 yields the payload, with exactly 3 attempts and 2
backoff sleeps. -/
theorem c4_fast_retry_witness :
    wake_and_send_command false
        (fun i => if i = 2 then [LinkEvent.line 1000 (str "PAYLOAD")] else [])
      = (str "PAYLOAD", 3, 2) :=
  c4_fast_retry.2.1
    (fun i => if i = 2 then [LinkEvent.line 1000 (str "PAYLOAD")] else [])
    (str "PAYLOAD") (by left; decide) (by left; decide) (by decide) (by decide)

/-- All three attempts of the retry wrapper failing yields `""` after 3
attempts and 2 backoffs. -/
theorem wake_all_fail (script : Nat → List LinkEvent)
    (hf0 : attemptFailed script 0) (hf1 : attemptFailed script 1)
    (hf2 : attemptFailed script 2) :
    wake_and_send_command false script = (str "", 3, 2) := by
  have e2 : wakeLoop script 2 1 = (str "", 1, 0) := wakeLoop_last_fail script 2 hf2
  have e1 : wakeLoop script 1 2
      = ((wakeLoop script 2 1).1, (wakeLoop script 2 1).2.1 + 1,
         (wakeLoop script 2 1).2.2 + 1) :=
    wakeLoop_step_fail script 1 1 (by omega) hf1
  have e0 : wakeLoop script 0 3
      = ((wakeLoop script 1 2).1, (wakeLoop script 1 2).2.1 + 1,
         (wakeLoop script 1 2).2.2 + 1) :=
    wakeLoop_step_fail script 0 2 (by omega) hf0
  simp [wake_and_send_command, e0, e1, e2]

/-- C7: the collection timing profiles are the contractual constants — a
range query (`"range "` followed by a non-blank payload) collects with quiet
period 1.5 s and hard timeout 30 s; any other (whitespace-clean) plain
command with 0.6 s and 20 s; and the fast-turnaround wrapper's collection
always uses 0.6 s and 10 s. -/
theorem c7_timing_profiles :
    (∀ r events, (∃ c ∈ r, isWs c = false) →
       sendPlainCollect (str "range " ++ r) events
         = collectPlainGo 1500 30000 true events none [])
    ∧ (∀ command events, pyStrip command = command →
        pfxOf (str "range ") command = false →
        sendPlainCollect command events
          = collectPlainGo 600 20000 false events none [])
    ∧ (∀ events, collectFast events = collectFastGo 600 10000 events none []) := by
  refine ⟨?_, ?_, ?_⟩
  · intro r events hr
    have he := expectRange_range_payload r hr
    simp [sendPlainCollect, he]
  · intro command events hclean hnot
    have he := expectRange_of_clean_nonrange command hclean hnot
    simp [sendPlainCollect, he]
  · intro events
    rfl

/-- C7 witness: `range 1 2` gets the 1.5 s / 30 s profile; `time` gets
0.6 s / 20 s. -/
theorem c7_timing_profiles_witness :
    sendPlainCollect (str "range " ++ str "1 2") []
        = collectPlainGo 1500 30000 true [] none []
    ∧ sendPlainCollect (str "time") []
        = collectPlainGo 600 20000 false [] none [] :=
  ⟨c7_timing_profiles.1 (str "1 2") [] ⟨'1', by decide, by decide⟩,
   c7_timing_profiles.2.1 (str "time") [] (by decide) (by decide)⟩

/-- C10: `send_command` and `_wake_and_send_command` never let an exception
escape — the top-level handler converts any failed body into `""`; a link
raising on every attempt still yields `""` from the retry wrapper after its
3 attempts; and an exception in the plain path's preamble yields `""`. -/
theorem c10_no_exception_escape :
    (∀ command serNone script preFail events,
       send_command_body command serNone script preFail events = .error () →
       send_command command serNone script preFail events = str "")
    ∧ (∀ script, (∀ i, i < 3 → collectFast (script i) = .error ()) →
        wake_and_send_command false script = (str "", 3, 2))
    ∧ (∀ command serNone script events,
        fastCommands.contains command = false →
        send_command command serNone script true events = str "") := by
  refine ⟨?_, ?_, ?_⟩
  · intro command serNone script preFail events h
    simp [send_command, h]
  · intro script h
    have hf : ∀ i, i < 3 → attemptFailed script i := by
      intro i hi
      right
      simp [attemptCapture, h i hi]
    exact wake_all_fail script (hf 0 (by omega)) (hf 1 (by omega)) (hf 2 (by omega))
  · intro command serNone script events hcmd
    have hmem : command ∉ fastCommands := by simpa using hcmd
    simp [send_command, send_command_body, hmem]

/-- C10 witness: a fast command whose every attempt raises, followed by a
raising fallback preamble, returns the empty string. -/
theorem c10_no_exception_escape_witness :
    send_command (str "time") false (fun _ => [LinkEvent.err 100]) true []
      = str "" :=
  c10_no_exception_escape.2.2 (str "time") false (fun _ => [LinkEvent.err 100])
    [] (by decide)

/-! ### Helper lemmas: marker-variable extraction -/

theorem find?_filter_of_imp {α : Type} {p q : α → Bool} (l : List α)
    (h : ∀ x, p x = true → q x = true) :
    (l.filter q).find? p = l.find? p := by
  induction l with
  | nil => rfl
  | cons a as ih =>
    by_cases hq : q a = true
    · rw [List.filter_cons_of_pos hq]
      cases hp : p a
      · rw [List.find?_cons_of_neg _ (by simp [hp]),
          List.find?_cons_of_neg _ (by simp [hp]), ih]
      · rw [List.find?_cons_of_pos _ hp, List.find?_cons_of_pos _ hp]
    · have hp : p a = false := by
        cases hpa : p a
        · rfl
        · exact absurd (h a hpa) hq
      rw [List.filter_cons_of_neg (by simp [hq]),
        List.find?_cons_of_neg _ (by simp [hp]), ih]

theorem gvwmLoop_found (startM endM : PyStr) (hne : startM ≠ endM) :
    ∀ ls acc, gvwmLoop startM endM ls true acc
      = acc ++ (((ls.map pyStrip).takeWhile fun l => !(l = endM : Bool)).filter
          fun l => !(l = startM : Bool)) := by
  intro ls
  induction ls with
  | nil => intro acc; simp [gvwmLoop]
  | cons raw rest ih =>
    intro acc
    by_cases h1 : pyStrip raw = startM
    · simp [gvwmLoop, h1, hne, List.takeWhile_cons, List.filter_cons, ih]
    · by_cases h2 : pyStrip raw = endM
      · simp [gvwmLoop, h1, h2, Ne.symm hne, List.takeWhile_cons]
      · simp [gvwmLoop, h1, h2, List.takeWhile_cons, List.filter_cons, ih,
          List.append_assoc]

theorem gvwm_loop_spec (startM endM : PyStr) (hne : startM ≠ endM)
    (P : PyStr → Bool) (hP : ∀ l, P l = true → (!(l = startM : Bool)) = true) :
    ∀ rawLines, (gvwmLoop startM endM rawLines false []).find? P
      = (((((rawLines.map pyStrip).dropWhile fun l => !(l = startM : Bool)).drop 1).takeWhile
          fun l => !(l = endM : Bool)).find? P) := by
  intro rawLines
  induction rawLines with
  | nil => rfl
  | cons raw rest ih =>
    by_cases h1 : pyStrip raw = startM
    · simp only [gvwmLoop, List.map_cons]
      rw [if_pos h1, gvwmLoop_found startM endM hne rest []]
      rw [List.dropWhile_cons_of_neg (by simp [h1])]
      simp only [List.nil_append, List.drop_succ_cons, List.drop_zero]
      exact find?_filter_of_imp _ hP
    · by_cases h2 : pyStrip raw = endM
      · simp only [gvwmLoop, List.map_cons]
        rw [if_neg h1, if_neg (by simp), if_neg (by simp),
          List.dropWhile_cons_of_pos (by simp [h1])]
        exact ih
      · simp only [gvwmLoop, List.map_cons]
        rw [if_neg h1, if_neg (by simp), if_neg (by simp),
          List.dropWhile_cons_of_pos (by simp [h1])]
        exact ih

theorem marker_tags_ne (mb : PyStr) :
    (str "<GET_" ++ mb ++ str "_BEGIN>" : PyStr)
      ≠ str "<GET_" ++ mb ++ str "_END>" := by
  intro h
  have hlen := congrArg List.length h
  have l1 : (str "<GET_").length = 5 := by decide
  have l2 : (str "_BEGIN>").length = 7 := by decide
  have l3 : (str "_END>").length = 5 := by decide
  simp only [List.length_append, l1, l2, l3] at hlen
  omega

/-- C6: the variable-name → marker table is exactly the five fixed pairs with
upper-case fallback, and marker extraction returns the first non-empty,
non-marker line strictly between the `<GET_<MARKER>_BEGIN>` line and the
`<GET_<MARKER>_END>` line; when no begin-marker line ever arrives the result
is `none`. -/
theorem c6_marker_variable :
    (marker_map (str "rfidOnTimeMs") = str "RFIDONTIME"
      ∧ marker_map (str "periodicIntervalMs") = str "PERIODICINTERVAL"
      ∧ marker_map (str "ssid") = str "SSID"
      ∧ marker_map (str "password") = str "PASSWORD"
      ∧ marker_map (str "longPressMs") = str "LONGPRESSMS")
    ∧ (∀ var, var ∉ [str "rfidOnTimeMs", str "periodicIntervalMs", str "ssid",
        str "password", str "longPressMs"] → marker_map var = pyUpper var)
    ∧ (∀ var rawLines,
        get_variable_with_markers var rawLines
          = gvwmSpec (str "<GET_" ++ marker_map var ++ str "_BEGIN>")
              (str "<GET_" ++ marker_map var ++ str "_END>") rawLines)
    ∧ (∀ var rawLines,
        (∀ raw ∈ rawLines,
          pyStrip raw ≠ str "<GET_" ++ marker_map var ++ str "_BEGIN>") →
        get_variable_with_markers var rawLines = none) := by
  refine ⟨⟨by decide, by decide, by decide, by decide, by decide⟩, ?_, ?_, ?_⟩
  · intro var hvar
    simp only [List.mem_cons, List.mem_singleton, not_or] at hvar
    obtain ⟨h1, h2, h3, h4, h5⟩ := hvar
    simp [marker_map, h1, h2, h3, h4, h5]
  · intro var rawLines
    exact gvwm_loop_spec _ _ (marker_tags_ne (marker_map var)) _
      (by intro l hl
          simp only [Bool.and_eq_true] at hl
          exact hl.1.2) rawLines
  · intro var rawLines hno
    have heq := gvwm_loop_spec
      (str "<GET_" ++ marker_map var ++ str "_BEGIN>")
      (str "<GET_" ++ marker_map var ++ str "_END>")
      (marker_tags_ne (marker_map var))
      (fun l => !l.isEmpty
        && !(l = str "<GET_" ++ marker_map var ++ str "_BEGIN>" : Bool)
        && !(l = str "<GET_" ++ marker_map var ++ str "_END>" : Bool))
      (by intro l hl
          simp only [Bool.and_eq_true] at hl
          exact hl.1.2) rawLines
    have hdrop : ((rawLines.map pyStrip).dropWhile
        fun l => !(l = str "<GET_" ++ marker_map var ++ str "_BEGIN>" : Bool)) = [] := by
      rw [List.dropWhile_eq_nil_iff]
      intro x hx
      rcases List.mem_map.mp hx with ⟨raw, hraw, hxeq⟩
      rw [← hxeq]
      simpa [List.append_assoc] using hno raw hraw
    show (gvwmLoop _ _ rawLines false []).find? _ = none
    rw [heq, hdrop]
    rfl

/-- C6 witness: the `ssid` variable, with a response containing a blank line
then the value between the `SSID` markers; and an unmapped name upper-cased. -/
theorem c6_marker_variable_witness :
    (get_variable_with_markers (str "ssid")
        [str "[DEBUG] chatter", str "<GET_SSID_BEGIN>", str "",
         str "MyNetwork", str "<GET_SSID_END>"]
      = gvwmSpec (str "<GET_" ++ marker_map (str "ssid") ++ str "_BEGIN>")
          (str "<GET_" ++ marker_map (str "ssid") ++ str "_END>")
          [str "[DEBUG] chatter", str "<GET_SSID_BEGIN>", str "",
           str "MyNetwork", str "<GET_SSID_END>"])
    ∧ marker_map (str "wifiChannel") = pyUpper (str "wifiChannel")
    ∧ get_variable_with_markers (str "ssid") [str "no markers here"] = none :=
  ⟨c6_marker_variable.2.2.1 (str "ssid") _,
   c6_marker_variable.2.1 (str "wifiChannel") (by decide),
   c6_marker_variable.2.2.2 (str "ssid") [str "no markers here"] (by decide)⟩

/-! ### Helper lemmas: reading-block parsing -/

/-- The begin sentinel as a full line. -/
def beginLine : PyStr := str "---BEGIN_READINGS---"

/-- The end sentinel as a full line. -/
def endLine : PyStr := str "---END_READINGS---"

theorem parseLoop_skip (pre : List PyStr) (ls : List PyStr) (acc : List Reading)
    (h : ∀ l ∈ pre, hasBeginR l = false ∧ hasEndR l = false) :
    parseLoop (pre ++ ls) false acc = parseLoop ls false acc := by
  induction pre with
  | nil => rfl
  | cons p ps ih =>
    have hp := h p (by simp)
    simp [parseLoop, hp.1, hp.2, ih (fun l hl => h l (by simp [hl]))]

theorem parseLoop_collect (body : List PyStr) (ls : List PyStr)
    (acc : List Reading)
    (h : ∀ l ∈ body, hasBeginR l = false ∧ hasEndR l = false) :
    parseLoop (body ++ ls) true acc
      = parseLoop ls true (acc ++ body.filterMap readingOfLine) := by
  induction body generalizing acc with
  | nil => simp
  | cons p ps ih =>
    have hp := h p (by simp)
    cases hr : readingOfLine p with
    | some r =>
      simp [parseLoop, hp.1, hp.2, hr, List.filterMap_cons,
        ih _ (fun l hl => h l (by simp [hl])), List.append_assoc]
    | none =>
      simp [parseLoop, hp.1, hp.2, hr, List.filterMap_cons,
        ih _ (fun l hl => h l (by simp [hl]))]

theorem length_filterMap_countP {α β : Type} (f : α → Option β) (l : List α) :
    (l.filterMap f).length = l.countP fun x => (f x).isSome := by
  induction l with
  | nil => rfl
  | cons a as ih =>
    cases hf : f a <;>
      simp [List.filterMap_cons, hf, List.countP_cons, ih]

/-- A line takes no part in block structure: neither sentinel occurs in it,
and it holds no newline. -/
def plainLine (l : PyStr) : Bool :=
  !hasBeginR l && !hasEndR l && noNl l

theorem plainLine_props {l : PyStr} (h : plainLine l = true) :
    hasBeginR l = false ∧ hasEndR l = false ∧ noNl l = true := by
  simp only [plainLine, Bool.and_eq_true, Bool.not_eq_true'] at h
  exact ⟨h.1.1, h.1.2, h.2⟩

theorem parseLoop_begin (l : PyStr) (hl : hasBeginR l = true)
    (ls : List PyStr) (inb : Bool) (acc : List Reading) :
    parseLoop (l :: ls) inb acc = parseLoop ls true acc := by
  simp [parseLoop, hl]

theorem parseLoop_end (l : PyStr) (h1 : hasBeginR l = false)
    (h2 : hasEndR l = true) (ls : List PyStr) (inb : Bool) (acc : List Reading) :
    parseLoop (l :: ls) inb acc = parseLoop ls false acc := by
  simp [parseLoop, h1, h2]

theorem parseLoop_all_skip (post : List PyStr) (acc : List Reading)
    (h : ∀ l ∈ post, hasBeginR l = false ∧ hasEndR l = false) :
    parseLoop post false acc = acc := by
  induction post with
  | nil => rfl
  | cons p ps ih =>
    have hp := h p (by simp)
    simp [parseLoop, hp.1, hp.2, ih (fun l hl => h l (by simp [hl]))]

theorem parse_readings_block (pre body post : List PyStr)
    (hpre : ∀ l ∈ pre, plainLine l = true)
    (hbody : ∀ l ∈ body, plainLine l = true)
    (hpost : ∀ l ∈ post, plainLine l = true) :
    parse_readings (joinNl (pre ++ beginLine :: (body ++ endLine :: post)))
      = body.filterMap readingOfLine := by
  have hall : ∀ l ∈ pre ++ beginLine :: (body ++ endLine :: post), noNl l = true := by
    intro l hl
    rcases List.mem_append.mp hl with hl | hl
    · exact (plainLine_props (hpre l hl)).2.2
    · rcases List.mem_cons.mp hl with hl | hl
      · rw [hl]; decide
      · rcases List.mem_append.mp hl with hl | hl
        · exact (plainLine_props (hbody l hl)).2.2
        · rcases List.mem_cons.mp hl with hl | hl
          · rw [hl]; decide
          · exact (plainLine_props (hpost l hl)).2.2
  have hne : pre ++ beginLine :: (body ++ endLine :: post) ≠ [] := by
    cases pre <;> simp
  unfold parse_readings
  rw [splitNl_joinNl hne hall]
  rw [parseLoop_skip pre _ _
    (fun l hl => ⟨(plainLine_props (hpre l hl)).1, (plainLine_props (hpre l hl)).2.1⟩)]
  rw [parseLoop_begin beginLine (by decide)]
  rw [parseLoop_collect body _ _
    (fun l hl => ⟨(plainLine_props (hbody l hl)).1, (plainLine_props (hbody l hl)).2.1⟩)]
  rw [parseLoop_end endLine (by decide) (by decide)]
  rw [parseLoop_all_skip post _
    (fun l hl => ⟨(plainLine_props (hpost l hl)).1, (plainLine_props (hpost l hl)).2.1⟩)]
  simp

/-- C5: for a captured text containing a well-formed
`---BEGIN_READINGS---`/`---END_READINGS---` block, `parse_readings` returns
exactly one Reading per in-block line matched by the debug or normal record
pattern, with the matcher's group values (timestamp, value, tag, temperature)
taken verbatim from the line, in order, and in-block lines matching neither
pattern are skipped without aborting the parse. -/
theorem c5_block_parsing (pre body post : List PyStr)
    (hpre : ∀ l ∈ pre, plainLine l = true)
    (hbody : ∀ l ∈ body, plainLine l = true)
    (hpost : ∀ l ∈ post, plainLine l = true) :
    parse_readings (joinNl (pre ++ beginLine :: (body ++ endLine :: post)))
      = body.filterMap readingOfLine
    ∧ (parse_readings (joinNl (pre ++ beginLine :: (body ++ endLine :: post)))).length
      = body.countP (fun l => (readingOfLine l).isSome) := by
  have h := parse_readings_block pre body post hpre hbody hpost
  exact ⟨h, by rw [h]; exact length_filterMap_countP _ _⟩

/-- C5 witness: a block with one normal record, one unrelated diagnostic
line (skipped), and one `N/A` record, surrounded by chatter. -/
theorem c5_block_parsing_witness :
    parse_readings (joinNl ([str "Some banner"] ++ beginLine ::
        ([str "#3: 2025-07-23 05:13:05, 999, 141004265912, 24.86°C",
          str "[WATCHDOG] fed",
          str "#4: 2025-07-23 05:14:05, 999, 141004265912, N/A"]
         ++ endLine :: [str "OK"])))
      = [str "#3: 2025-07-23 05:13:05, 999, 141004265912, 24.86°C",
         str "[WATCHDOG] fed",
         str "#4: 2025-07-23 05:14:05, 999, 141004265912, N/A"].filterMap
          readingOfLine :=
  (c5_block_parsing [str "Some banner"]
    [str "#3: 2025-07-23 05:13:05, 999, 141004265912, 24.86°C",
     str "[WATCHDOG] fed",
     str "#4: 2025-07-23 05:14:05, 999, 141004265912, N/A"]
    [str "OK"] (by decide) (by decide) (by decide)).1

/-- C3 counterexample: the claim quantifies over both `parse_readings`
implementations, but the older dashboard's patterns require a `°C`-suffixed
decimal temperature, so its `parse_readings` silently DROPS the spec's
example `N/A` line instead of producing a Reading with `TemperatureC "N/A"`. -/
theorem c3_nmb_drops_na_line :
    parse_readings_nmb (joinNl [beginLine,
        str "#4: 2025-07-23 05:14:05, 999, 141004265912, N/A", endLine])
      = []
    ∧ parse_readings (joinNl [beginLine,
        str "#4: 2025-07-23 05:14:05, 999, 141004265912, N/A", endLine])
      = [⟨str "2025-07-23 05:14:05", str "999", str "141004265912", str "N/A"⟩] := by
  constructor
  · decide
  · decide

/-- C3 (amended to the S3-live `parse_readings`): every in-block line whose
temperature group matches as the literal `N/A` yields a Reading whose
`Temperature_C` field is exactly the string `"N/A"` — neither dropped nor
coerced. -/
theorem c3_na_verbatim (pre b1 b2 post : List PyStr) (line ts v tg : PyStr)
    (hpre : ∀ l ∈ pre, plainLine l = true)
    (hb1 : ∀ l ∈ b1, plainLine l = true)
    (hb2 : ∀ l ∈ b2, plainLine l = true)
    (hpost : ∀ l ∈ post, plainLine l = true)
    (hline : plainLine line = true)
    (hm : reSearch matchDebugAt line = some (ts, v, tg, str "N/A")
        ∨ (reSearch matchDebugAt line = none
           ∧ reSearch matchNormalAt line = some (ts, v, tg, str "N/A"))) :
    Reading.mk ts v tg (str "N/A")
      ∈ parse_readings (joinNl (pre ++ beginLine ::
          ((b1 ++ line :: b2) ++ endLine :: post))) := by
  have hread : readingOfLine line = some ⟨ts, v, tg, str "N/A"⟩ := by
    rcases hm with hm | ⟨hm1, hm2⟩
    · simp [readingOfLine, hm, tempValueOf]
    · simp [readingOfLine, hm1, hm2, tempValueOf]
  have hbody : ∀ l ∈ b1 ++ line :: b2, plainLine l = true := by
    intro l hl
    rcases List.mem_append.mp hl with hl | hl
    · exact hb1 l hl
    · rcases List.mem_cons.mp hl with hl | hl
      · rw [hl]; exact hline
      · exact hb2 l hl
  rw [parse_readings_block pre (b1 ++ line :: b2) post hpre hbody hpost]
  exact List.mem_filterMap.mpr ⟨line, by simp, hread⟩

/-- C3 witness: the spec's example line inside a minimal block. -/
theorem c3_na_verbatim_witness :
    Reading.mk (str "2025-07-23 05:14:05") (str "999") (str "141004265912")
        (str "N/A")
      ∈ parse_readings (joinNl ([] ++ beginLine ::
          (([] ++ (str "#4: 2025-07-23 05:14:05, 999, 141004265912, N/A") :: [])
            ++ endLine :: []))) :=
  c3_na_verbatim [] [] [] []
    (str "#4: 2025-07-23 05:14:05, 999, 141004265912, N/A")
    (str "2025-07-23 05:14:05") (str "999") (str "141004265912")
    (by decide) (by decide) (by decide) (by decide) (by decide)
    (Or.inr ⟨by decide, by decide⟩)

/-! ### Helper lemmas: `<DASHBOARD_DATA>` wrapper scanning -/

/-- Assemble fillers and wrapper contents:
`f₀ <DASHBOARD_DATA> w₀ </DASHBOARD_DATA> … q`. -/
def assembleWrapped : List (PyStr × PyStr) → PyStr → PyStr
  | [], q => q
  | (f, w) :: rest, q => f ++ openTag ++ w ++ closeTag ++ assembleWrapped rest q

theorem openTag_unbordered : Unbordered openTag :=
  unborderedB_sound (by decide)

theorem closeTag_unbordered : Unbordered closeTag :=
  unborderedB_sound (by decide)

theorem ddFindallGo_assembled :
    ∀ (segs : List (PyStr × PyStr)) (q : PyStr) (fuel : Nat),
      (assembleWrapped segs q).length ≤ fuel →
      (∀ s ∈ segs, NoOcc openTag s.1) →
      (∀ s ∈ segs, NoOcc closeTag s.2) →
      NoOcc openTag q →
      ddFindallGo fuel (assembleWrapped segs q) = segs.map Prod.snd := by
  intro segs
  induction segs with
  | nil =>
    intro q fuel _ _ _ hq
    cases fuel with
    | zero => rfl
    | succ fuel =>
      simp only [assembleWrapped, ddFindallGo]
      rw [splitFirst_none_of_noOcc hq]
      rfl
  | cons s rest ih =>
    obtain ⟨f, w⟩ := s
    intro q fuel hfuel hf hw hq
    have hol : openTag.length = 16 := by decide
    have hcl : closeTag.length = 17 := by decide
    have hshape : assembleWrapped ((f, w) :: rest) q
        = f ++ openTag ++ (w ++ closeTag ++ assembleWrapped rest q) := by
      simp [assembleWrapped, List.append_assoc]
    cases fuel with
    | zero =>
      exfalso
      rw [hshape] at hfuel
      simp only [List.length_append, hol] at hfuel
      omega
    | succ fuel =>
      have e1 : splitFirst openTag (assembleWrapped ((f, w) :: rest) q)
          = some (f, w ++ closeTag ++ assembleWrapped rest q) := by
        rw [hshape]
        exact splitFirst_boundary (by decide) openTag_unbordered f _
          (hf (f, w) (by simp))
      have e2 : splitFirst closeTag (w ++ closeTag ++ assembleWrapped rest q)
          = some (w, assembleWrapped rest q) :=
        splitFirst_boundary (by decide) closeTag_unbordered w _
          (hw (f, w) (by simp))
      have hrec : ddFindallGo fuel (assembleWrapped rest q) = rest.map Prod.snd := by
        apply ih q fuel ?_ (fun x hx => hf x (by simp [hx]))
          (fun x hx => hw x (by simp [hx])) hq
        rw [hshape] at hfuel
        simp only [List.length_append, hol, hcl] at hfuel
        omega
      simp only [ddFindallGo, e1, e2, hrec, List.map_cons]

theorem ddFindall_assembled (segs : List (PyStr × PyStr)) (q : PyStr)
    (hf : ∀ s ∈ segs, NoOcc openTag s.1)
    (hw : ∀ s ∈ segs, NoOcc closeTag s.2)
    (hq : NoOcc openTag q) :
    ddFindall (assembleWrapped segs q) = segs.map Prod.snd :=
  ddFindallGo_assembled segs q _ (le_refl _) hf hw hq

/-! ### Helper lemmas: block scanning inside a wrapper -/

/-- Assemble block segments at line level:
`u₀ ---BEGIN_READINGS--- body₀ ---END_READINGS--- … trail`. -/
def assembleBlockLines : List (List PyStr × List PyStr) → List PyStr → List PyStr
  | [], trail => trail
  | (u, body) :: rest, trail =>
    u ++ beginLine :: (body ++ endLine :: assembleBlockLines rest trail)

theorem blocksLoop_skip (u : List PyStr) (ls : List PyStr)
    (cur blocks : List PyStr)
    (h : ∀ l ∈ u, hasBeginR l = false ∧ hasEndR l = false) :
    blocksLoop (u ++ ls) false cur blocks = blocksLoop ls false cur blocks := by
  induction u with
  | nil => rfl
  | cons p ps ih =>
    have hp := h p (by simp)
    simp [blocksLoop, hp.1, hp.2, ih (fun l hl => h l (by simp [hl]))]

theorem blocksLoop_collect (body : List PyStr) (ls : List PyStr)
    (cur blocks : List PyStr)
    (h : ∀ l ∈ body, hasBeginR l = false ∧ hasEndR l = false) :
    blocksLoop (body ++ ls) true cur blocks
      = blocksLoop ls true (cur ++ body) blocks := by
  induction body generalizing cur with
  | nil => simp
  | cons p ps ih =>
    have hp := h p (by simp)
    simp [blocksLoop, hp.1, hp.2, ih _ (fun l hl => h l (by simp [hl])),
      List.append_assoc]

theorem blocksLoop_all_skip (u : List PyStr) (cur blocks : List PyStr)
    (h : ∀ l ∈ u, hasBeginR l = false ∧ hasEndR l = false) :
    blocksLoop u false cur blocks = blocks := by
  induction u with
  | nil => rfl
  | cons p ps ih =>
    have hp := h p (by simp)
    simp [blocksLoop, hp.1, hp.2, ih (fun l hl => h l (by simp [hl]))]

theorem blocksLoop_begin (l : PyStr) (hl : hasBeginR l = true)
    (ls : List PyStr) (inb : Bool) (cur blocks : List PyStr) :
    blocksLoop (l :: ls) inb cur blocks = blocksLoop ls true [] blocks := by
  simp [blocksLoop, hl]

theorem blocksLoop_end (l : PyStr) (h1 : hasBeginR l = false)
    (h2 : hasEndR l = true) (ls : List PyStr) (inb : Bool)
    (cur blocks : List PyStr) :
    blocksLoop (l :: ls) inb cur blocks
      = blocksLoop ls false cur (blocks ++ [joinNl cur]) := by
  simp [blocksLoop, h1, h2]

theorem blocksLoop_assembled :
    ∀ (bsegs : List (List PyStr × List PyStr)) (trail : List PyStr)
      (cur blocks : List PyStr),
      (∀ s ∈ bsegs, (∀ l ∈ s.1, plainLine l = true)
        ∧ (∀ l ∈ s.2, plainLine l = true)) →
      (∀ l ∈ trail, plainLine l = true) →
      blocksLoop (assembleBlockLines bsegs trail) false cur blocks
        = blocks ++ bsegs.map fun s => joinNl s.2 := by
  intro bsegs
  induction bsegs with
  | nil =>
    intro trail cur blocks _ htrail
    simp only [assembleBlockLines, List.map_nil, List.append_nil]
    exact blocksLoop_all_skip trail cur blocks
      (fun l hl => ⟨(plainLine_props (htrail l hl)).1,
        (plainLine_props (htrail l hl)).2.1⟩)
  | cons s rest ih =>
    obtain ⟨u, body⟩ := s
    intro trail cur blocks hsegs htrail
    have hu := (hsegs (u, body) (by simp)).1
    have hbody := (hsegs (u, body) (by simp)).2
    simp only [assembleBlockLines]
    rw [blocksLoop_skip u _ _ _
      (fun l hl => ⟨(plainLine_props (hu l hl)).1, (plainLine_props (hu l hl)).2.1⟩)]
    rw [blocksLoop_begin beginLine (by decide)]
    rw [blocksLoop_collect body _ _ _
      (fun l hl => ⟨(plainLine_props (hbody l hl)).1,
        (plainLine_props (hbody l hl)).2.1⟩)]
    rw [blocksLoop_end endLine (by decide) (by decide)]
    rw [ih trail _ _ (fun x hx => hsegs x (by simp [hx])) htrail]
    simp

theorem assembleBlockLines_ne_nil (s : List PyStr × List PyStr)
    (rest : List (List PyStr × List PyStr)) (trail : List PyStr) :
    assembleBlockLines (s :: rest) trail ≠ [] := by
  obtain ⟨u, body⟩ := s
  simp only [assembleBlockLines]
  cases u <;> simp

theorem assembleBlockLines_noNl :
    ∀ (bsegs : List (List PyStr × List PyStr)) (trail : List PyStr),
      (∀ s ∈ bsegs, (∀ l ∈ s.1, plainLine l = true)
        ∧ (∀ l ∈ s.2, plainLine l = true)) →
      (∀ l ∈ trail, plainLine l = true) →
      ∀ l ∈ assembleBlockLines bsegs trail, noNl l = true := by
  intro bsegs
  induction bsegs with
  | nil =>
    intro trail _ htrail l hl
    exact (plainLine_props (htrail l hl)).2.2
  | cons s rest ih =>
    obtain ⟨u, body⟩ := s
    intro trail hsegs htrail l hl
    simp only [assembleBlockLines] at hl
    rcases List.mem_append.mp hl with hl | hl
    · exact (plainLine_props ((hsegs (u, body) (by simp)).1 l hl)).2.2
    · rcases List.mem_cons.mp hl with hl | hl
      · rw [hl]; decide
      · rcases List.mem_append.mp hl with hl | hl
        · exact (plainLine_props ((hsegs (u, body) (by simp)).2 l hl)).2.2
        · rcases List.mem_cons.mp hl with hl | hl
          · rw [hl]; decide
          · exact ih trail (fun x hx => hsegs x (by simp [hx])) htrail l hl

theorem assembleBlockLines_concat_ne_nil
    (bpre : List (List PyStr × List PyStr)) (lastu lastbody : List PyStr)
    (trail : List PyStr) :
    assembleBlockLines (bpre ++ [(lastu, lastbody)]) trail ≠ [] := by
  cases bpre with
  | nil => exact assembleBlockLines_ne_nil (lastu, lastbody) [] trail
  | cons s rest =>
    exact assembleBlockLines_ne_nil s (rest ++ [(lastu, lastbody)]) trail

/-- C2 (amended): `extract_latest_readings_block`, on a text consisting of
complete `<DASHBOARD_DATA>` wrappers (fillers free of the open tag, contents
free of the close tag) whose last wrapper's lines form begin/end-delimited
blocks, returns exactly the last block of the last wrapper — contents of
earlier wrappers and earlier blocks never appear in the result. -/
theorem c2_last_wrapper_last_block
    (wpre : List (PyStr × PyStr)) (fn q : PyStr)
    (bpre : List (List PyStr × List PyStr)) (lastu lastbody : List PyStr)
    (trail : List PyStr)
    (hwpre : ∀ s ∈ wpre, containsSub openTag s.1 = false
        ∧ containsSub closeTag s.2 = false)
    (hfn : containsSub openTag fn = false)
    (hq : containsSub openTag q = false)
    (hwn : containsSub closeTag
        (joinNl (assembleBlockLines (bpre ++ [(lastu, lastbody)]) trail)) = false)
    (hbsegs : ∀ s ∈ bpre ++ [(lastu, lastbody)],
        (∀ l ∈ s.1, plainLine l = true) ∧ (∀ l ∈ s.2, plainLine l = true))
    (htrail : ∀ l ∈ trail, plainLine l = true) :
    extract_latest_readings_block
        (assembleWrapped
          (wpre ++ [(fn,
            joinNl (assembleBlockLines (bpre ++ [(lastu, lastbody)]) trail))])
          q)
      = joinNl lastbody := by
  set wn := joinNl (assembleBlockLines (bpre ++ [(lastu, lastbody)]) trail) with hwndef
  have hf : ∀ s ∈ wpre ++ [(fn, wn)], NoOcc openTag s.1 := by
    intro s hs
    rcases List.mem_append.mp hs with hs | hs
    · exact NoOcc_of_not_containsSub (hwpre s hs).1
    · rcases List.mem_singleton.mp hs with rfl
      exact NoOcc_of_not_containsSub hfn
  have hw : ∀ s ∈ wpre ++ [(fn, wn)], NoOcc closeTag s.2 := by
    intro s hs
    rcases List.mem_append.mp hs with hs | hs
    · exact NoOcc_of_not_containsSub (hwpre s hs).2
    · rcases List.mem_singleton.mp hs with rfl
      exact NoOcc_of_not_containsSub hwn
  have h1 : ddFindall (assembleWrapped (wpre ++ [(fn, wn)]) q)
      = wpre.map Prod.snd ++ [wn] := by
    rw [ddFindall_assembled _ q hf hw (NoOcc_of_not_containsSub hq)]
    simp
  have h2 : splitNl wn = assembleBlockLines (bpre ++ [(lastu, lastbody)]) trail := by
    rw [hwndef]
    exact splitNl_joinNl (assembleBlockLines_concat_ne_nil bpre lastu lastbody trail)
      (assembleBlockLines_noNl _ trail hbsegs htrail)
  have h3 : blocksLoop (splitNl wn) false [] []
      = (bpre ++ [(lastu, lastbody)]).map fun s => joinNl s.2 := by
    rw [h2]
    have := blocksLoop_assembled (bpre ++ [(lastu, lastbody)]) trail [] []
      hbsegs htrail
    simpa using this
  simp only [extract_latest_readings_block]
  rw [h1]
  rw [if_neg (by simp)]
  rw [List.getLastD_concat, h3]
  simp [List.getLastD_concat]

/-- C2 counterexample: the reading path the dashboard actually invokes is
`parse_readings` on the full captured text (`extract_latest_readings_block`
has no caller); on a text with two complete wrappers it returns the reading
of the FIRST wrapper's block as well, so readings outside the last wrapper
are returned. -/
theorem c2_all_wrappers_parsed :
    parse_readings (joinNl
        [str "<DASHBOARD_DATA>", beginLine,
         str "#1: 2025-07-23 05:13:05, 999, 111, 24.86°C", endLine,
         str "</DASHBOARD_DATA>",
         str "<DASHBOARD_DATA>", beginLine,
         str "#2: 2025-07-23 05:14:05, 999, 222, 25.10°C", endLine,
         str "</DASHBOARD_DATA>"])
      = [⟨str "2025-07-23 05:13:05", str "999", str "111", str "24.86"⟩,
         ⟨str "2025-07-23 05:14:05", str "999", str "222", str "25.10"⟩] := by
  decide

set_option maxRecDepth 8000 in
/-- C2 witness: two wrappers, the last holding two blocks; extraction returns
exactly the last block of the last wrapper. -/
theorem c2_last_wrapper_last_block_witness :
    extract_latest_readings_block
        (assembleWrapped
          ([(str "banner ",
             joinNl [str "", beginLine,
               str "#9: 2025-07-23 05:12:05, 999, 333, 20.00°C", endLine])]
            ++ [(str " mid ",
              joinNl (assembleBlockLines
                ([([str ""], [str "#1: 2025-07-23 05:13:05, 999, 111, 24.86°C"])]
                  ++ [([str ""],
                      [str "#2: 2025-07-23 05:14:05, 999, 222, 25.10°C"])])
                [str ""]))])
          (str " rest"))
      = joinNl [str "#2: 2025-07-23 05:14:05, 999, 222, 25.10°C"] :=
  c2_last_wrapper_last_block
    [(str "banner ",
      joinNl [str "", beginLine,
        str "#9: 2025-07-23 05:12:05, 999, 333, 20.00°C", endLine])]
    (str " mid ") (str " rest")
    [([str ""], [str "#1: 2025-07-23 05:13:05, 999, 111, 24.86°C"])]
    [str ""] [str "#2: 2025-07-23 05:14:05, 999, 222, 25.10°C"] [str ""]
    (by decide) (by decide) (by decide) (by decide) (by decide) (by decide)

/-! ### Claim theorems: live-poll failure accounting and window -/

/-- C8: a failed poll (empty response or exception) leaves the displayed
result set untouched and bumps the consecutive-failure counter: below the
threshold it becomes `errCount + 1` with no signal and the connection kept;
when the incremented counter reaches 3, the connection-lost signal is shown,
the watch session is no longer active, and the counter is reset to 0.  Every
successful (nonempty) poll resets the counter to 0, replacing the display
only when readings were parsed. -/
theorem c8_failure_accounting :
    ∀ (s : PollState) (r : PollResult),
      ((r = .empty ∨ r = .exn) →
        (liveIter s r).1.lastDf = s.lastDf
        ∧ (s.errCount + 1 < 3 →
            (liveIter s r).1.errCount = s.errCount + 1
            ∧ (liveIter s r).2 = false
            ∧ (liveIter s r).1.connected = s.connected)
        ∧ (3 ≤ s.errCount + 1 →
            (liveIter s r).2 = true
            ∧ watchActive (liveIter s r).1 = false
            ∧ (liveIter s r).1.errCount = 0))
      ∧ (∀ readings,
          (liveIter s (.resp readings)).1.errCount = 0
          ∧ (readings = [] →
              (liveIter s (.resp readings)).1.lastDf = s.lastDf)
          ∧ (readings ≠ [] →
              (liveIter s (.resp readings)).1.lastDf = some readings)) := by
  intro s r
  constructor
  · intro hr
    have hbody : pollStep s r
        = (if 3 ≤ s.errCount + 1
            then ({ s with errCount := 0, connected := false }, true)
            else ({ s with errCount := s.errCount + 1 }, false)) := by
      rcases hr with rfl | rfl <;> rfl
    by_cases h3 : 3 ≤ s.errCount + 1
    · refine ⟨?_, fun hlt => absurd h3 (by omega), fun _ => ?_⟩
      · simp [liveIter, hbody, h3]
      · refine ⟨?_, ?_, ?_⟩ <;> simp [liveIter, hbody, h3, watchActive]
    · refine ⟨?_, fun _ => ⟨?_, ?_, ?_⟩, fun hge => absurd hge h3⟩ <;>
        simp [liveIter, hbody, h3] <;> split <;> simp
  · intro readings
    refine ⟨?_, fun he => ?_, fun hne => ?_⟩
    · simp [liveIter, pollStep]; split <;> simp
    · simp [liveIter, pollStep, he]; split <;> simp
    · simp [liveIter, pollStep, hne]; split <;> simp

/-- C8 witness: with 2 failures on record, a third failed poll raises the
connection-lost signal and deactivates the watch session, leaving the
displayed data untouched; a successful poll from 1 failure resets the
counter. -/
theorem c8_failure_accounting_witness :
    ((liveIter ⟨none, 2, true, false⟩ .empty).2 = true
      ∧ watchActive (liveIter ⟨none, 2, true, false⟩ .empty).1 = false
      ∧ (liveIter ⟨none, 2, true, false⟩ .empty).1.errCount = 0)
    ∧ (liveIter ⟨none, 2, true, false⟩ .empty).1.lastDf = none
    ∧ (liveIter ⟨none, 1, true, false⟩
        (.resp [⟨str "2025-07-23 05:13:05", str "999", str "111",
          str "24.86"⟩])).1.errCount = 0 :=
  ⟨(c8_failure_accounting ⟨none, 2, true, false⟩ .empty).1 (Or.inl rfl)
      |>.2.2 (by decide),
   (c8_failure_accounting ⟨none, 2, true, false⟩ .empty).1 (Or.inl rfl) |>.1,
   ((c8_failure_accounting ⟨none, 1, true, false⟩
      (.resp [⟨str "2025-07-23 05:13:05", str "999", str "111",
        str "24.86"⟩])).2 _).1⟩

/-! ### Claim theorem: live-view window -/

/-- An event is a poll. -/
def isPoll : LEvent → Bool
  | .poll _ => true
  | _ => false

theorem lvRun_active_polls (t0 : Nat) :
    ∀ (mid : List LEvent), (∀ e ∈ mid, isPoll e = true) →
      lvRun ⟨true, some t0⟩ mid
        = (⟨true, some t0⟩, mid.filterMap fun e =>
            match e with | .poll u => some (t0, u) | _ => none) := by
  intro mid
  induction mid with
  | nil => intro _; rfl
  | cons e es ih =>
    intro h
    have he := h e (by simp)
    cases e with
    | activate u => simp [isPoll] at he
    | deactivate => simp [isPoll] at he
    | poll u =>
      have hstep : lvStep ⟨true, some t0⟩ (LEvent.poll u)
          = (⟨true, some t0⟩, some (t0, u)) := by simp [lvStep]
      simp only [lvRun, hstep]
      rw [ih (fun x hx => h x (by simp [hx]))]
      simp [List.filterMap_cons]

/-- C9: after activating the live view at `t0`, as long as only polls occur,
`windowStart` stays `some t0` and the session active; every poll issues the
query window `[t0, pollTime]` (the end recomputed as the poll's time), so
`windowStart ≤ windowEnd` for every issued query when the poll times follow
the activation; deactivation returns to the inactive state and clears
`windowStart`. -/
theorem c9_window_invariant (t0 : Nat) (mid : List LEvent)
    (hmid : ∀ e ∈ mid, isPoll e = true)
    (hmono : ∀ u, LEvent.poll u ∈ mid → t0 ≤ u) :
    ((lvRun (lvStep lvInit (.activate t0)).1 mid).1.windowStart = some t0
      ∧ (lvRun (lvStep lvInit (.activate t0)).1 mid).1.active = true)
    ∧ (lvRun (lvStep lvInit (.activate t0)).1 mid).2
        = mid.filterMap (fun e =>
            match e with | .poll u => some (t0, u) | _ => none)
    ∧ (∀ q ∈ (lvRun (lvStep lvInit (.activate t0)).1 mid).2,
        q.1 = t0 ∧ q.1 ≤ q.2)
    ∧ (lvStep (lvRun (lvStep lvInit (.activate t0)).1 mid).1 .deactivate).1
        = ⟨false, none⟩ := by
  have hact : (lvStep lvInit (.activate t0)).1 = ⟨true, some t0⟩ := by
    simp [lvStep, lvInit]
  rw [hact, lvRun_active_polls t0 mid hmid]
  refine ⟨⟨rfl, rfl⟩, rfl, ?_, by simp [lvStep]⟩
  intro q hq
  rcases List.mem_filterMap.mp hq with ⟨e, he, heq⟩
  cases e with
  | activate u => simp at heq
  | deactivate => simp at heq
  | poll u =>
    simp only [Option.some.injEq] at heq
    rw [← heq]
    exact ⟨rfl, hmono u he⟩

/-- C9 witness: activation at `t0 = 2` and three polls at 5, 10, 15 issue
windows `[2,5]`, `[2,10]`, `[2,15]`, each well-ordered, with `windowStart`
unchanged until deactivation clears it. -/
theorem c9_window_invariant_witness :
    ((lvRun (lvStep lvInit (.activate 2)).1
        [.poll 5, .poll 10, .poll 15]).1.windowStart = some 2
      ∧ (lvRun (lvStep lvInit (.activate 2)).1
          [.poll 5, .poll 10, .poll 15]).1.active = true)
    ∧ (lvRun (lvStep lvInit (.activate 2)).1
        [.poll 5, .poll 10, .poll 15]).2
        = [LEvent.poll 5, LEvent.poll 10, LEvent.poll 15].filterMap (fun e =>
            match e with | .poll u => some (2, u) | _ => none)
    ∧ (∀ q ∈ (lvRun (lvStep lvInit (.activate 2)).1
          [.poll 5, .poll 10, .poll 15]).2, q.1 = 2 ∧ q.1 ≤ q.2)
    ∧ (lvStep (lvRun (lvStep lvInit (.activate 2)).1
          [.poll 5, .poll 10, .poll 15]).1 .deactivate).1 = ⟨false, none⟩ :=
  c9_window_invariant 2 [.poll 5, .poll 10, .poll 15] (by decide)
    (by intro u hu
        simp only [List.mem_cons, List.not_mem_nil, or_false] at hu
        rcases hu with h | h | h <;> (injection h with h2; omega))
